import Mathlib

/-!
Verification development for a two-pass assembler for a fictional 24-bit
machine.  The C sources are shallowly embedded: a source line is a list of
characters (the end of the list plays the role of the NUL terminator that
`fgets` appends), every parsing routine is translated into an executable
Lean function, and the two passes plus the artifact writers are modelled as
explicit state-passing functions.  Machine integers are modelled as `Nat`
and `Int` with explicit reductions modulo powers of two where the C code
truncates (bit-fields and the 24-bit object words).
-/

namespace Asm24

/-- A C string as scanned by the assembler: a list of characters.  The end
of the list stands for the NUL terminator; the sources never store NUL
inside a line. -/
abbrev Str := List Char

/-- Character at index `i`, with the NUL terminator semantics of C strings:
reading past the end yields the character of code 0. -/
def char_at (s : Str) (i : Nat) : Char := s.getD i (Char.ofNat 0)

/-- C `isspace` in the "C" locale (the only characters `fgets` can deliver
that satisfy it). -/
def isspace_c (c : Char) : Bool :=
  c = ' ' || c = '\t' || c = '\n' || c = Char.ofNat 11 || c = Char.ofNat 12 || c = Char.ofNat 13

/-- C `isalpha` in the "C" locale (ASCII letters). -/
def isalpha_c (c : Char) : Bool := ('A' ≤ c && c ≤ 'Z') || ('a' ≤ c && c ≤ 'z')

/-- C `isdigit`. -/
def isdigit_c (c : Char) : Bool := '0' ≤ c && c ≤ '9'

/-- C `isalnum`. -/
def isalnum_c (c : Char) : Bool := isalpha_c c || isdigit_c c

/-- utils.c `skip_whitespace`: advances the index past ' ' and '\t'
(modelled as dropping that prefix). -/
def skip_whitespace (s : Str) : Str := s.dropWhile (fun c => c = ' ' || c = '\t')

/-- utils.c `str_trim`: removes leading and trailing `isspace` characters. -/
def str_trim (s : Str) : Str :=
  ((s.dropWhile (fun c => isspace_c c)).reverse.dropWhile (fun c => isspace_c c)).reverse

/-- utils.c `is_valid_label`: nonempty, starts with an ASCII letter, the
rest alphanumeric, total length at most 31 (the loop index check `i > 31`
after the scan). -/
def is_valid_label (s : Str) : Bool :=
  match s with
  | [] => false
  | c :: rest => isalpha_c c && rest.all (fun d => isalnum_c d) && rest.length ≤ 30

/-- Characters that end the label scan of utils.c `get_label`. -/
def label_stop (c : Char) : Bool := c = ':' || c = ' ' || c = '\t' || c = '\n'

/-- utils.c `get_label`: after leading blanks, the token up to a ':', ' ',
'\t' or '\n'; it is a label exactly when the stopping character is ':' .
Returns the scanned token, or `none` when the line carries no label. -/
def get_label (s : Str) : Option Str :=
  let t := skip_whitespace s
  let tok := t.takeWhile (fun c => !label_stop c)
  if (t.dropWhile (fun c => !label_stop c)).head? = some ':' then some tok else none

/-- The index advance `while (line.text[index] != ':') index++; index++;`
used by the passes to jump behind a label's colon (starting from the
beginning of the line). -/
def after_colon (s : Str) : Str := (s.dropWhile (fun c => c != ':')).drop 1

/-- globals.h symbol kinds (symbol_table.h `SymbolType`); `SYMBOL_EXTERN`
in the source is rendered `SYMBOL_EXTERNAL` here. -/
inductive SymbolType
  | SYMBOL_CODE
  | SYMBOL_DATA
  | SYMBOL_ENTRY
  | SYMBOL_EXTERNAL
  deriving DecidableEq, Repr

/-- symbol_table.h `SymbolEntry` (the `next` pointer becomes the list
structure of the table). -/
structure SymbolEntry where
  name : Str
  address : Int
  type : SymbolType
  deriving DecidableEq, Repr

/-- The symbol table: entries in insertion order (head = oldest). -/
abbrev SymbolTable := List SymbolEntry

/-- symbol_table.c `find_symbol`: first entry with the given name. -/
def find_symbol (table : SymbolTable) (name : Str) : Option SymbolEntry :=
  table.find? (fun e => e.name == name)

/-- symbol_table.c `find_symbol_by_type`: first entry with the given name
and kind. -/
def find_symbol_by_type (table : SymbolTable) (name : Str) (t : SymbolType) : Option SymbolEntry :=
  table.find? (fun e => e.name == name && e.type == t)

/-- symbol_table.c `add_symbol`: rejects (leaving the table unchanged) when
any entry with the name exists, otherwise appends at the tail. -/
def add_symbol (table : SymbolTable) (name : Str) (addr : Int) (t : SymbolType) :
    Bool × SymbolTable :=
  if (find_symbol table name).isSome then (false, table)
  else (true, table ++ [{ name := name, address := addr, type := t }])

/-- globals.h `OpCode`. -/
inductive OpCode
  | OP_MOV
  | OP_CMP
  | OP_MATH
  | OP_LEA
  | OP_SINGLE
  | OP_JUMPS
  | OP_RED
  | OP_PRN
  | OP_RTS
  | OP_HALT
  | OP_INVALID
  deriving DecidableEq, Repr

/-- The integer value of each `OpCode` enumerator. -/
def opcodeVal : OpCode → Int
  | .OP_MOV => 0
  | .OP_CMP => 1
  | .OP_MATH => 2
  | .OP_LEA => 4
  | .OP_SINGLE => 5
  | .OP_JUMPS => 9
  | .OP_RED => 12
  | .OP_PRN => 13
  | .OP_RTS => 14
  | .OP_HALT => 15
  | .OP_INVALID => -1

/-- globals.h `FuncCode`. -/
inductive FuncCode
  | F_NONE
  | F_ADD
  | F_SUB
  | F_CLR
  | F_NOT
  | F_INC
  | F_DEC
  | F_JMP
  | F_BNE
  | F_JSR
  deriving DecidableEq, Repr

/-- The integer value of each `FuncCode` enumerator. -/
def funcVal : FuncCode → Int
  | .F_NONE => 0
  | .F_ADD => 1
  | .F_SUB => 2
  | .F_CLR => 1
  | .F_NOT => 2
  | .F_INC => 3
  | .F_DEC => 4
  | .F_JMP => 1
  | .F_BNE => 2
  | .F_JSR => 3

/-- globals.h `AddressMode` (with its two error values). -/
inductive AddressMode
  | IMMEDIATE
  | DIRECT
  | RELATIVE
  | REGISTER_MODE
  | NO_ADDRESSING
  | INVALID_ADDR
  deriving DecidableEq, Repr

/-- The integer value of each `AddressMode` enumerator. -/
def amVal : AddressMode → Int
  | .IMMEDIATE => 0
  | .DIRECT => 1
  | .RELATIVE => 2
  | .REGISTER_MODE => 3
  | .NO_ADDRESSING => -1
  | .INVALID_ADDR => -2

/-- code.h ARE flag values. -/
def ARE_ABSOLUTE : Nat := 4

/-- code.h: the Relocatable ARE flag. -/
def ARE_RELOCATABLE : Nat := 2

/-- code.h: the External ARE flag. -/
def ARE_EXTERNAL : Nat := 1

/-- globals.h start value of the instruction counter. -/
def START_IC : Nat := 100

/-- globals.h bound of the `code` array. -/
def MAX_CODE_SIZE : Nat := 1200

/-- C bit-field truncation: storing `v` into an unsigned bit-field of the
given width keeps `v` modulo `2 ^ width`. -/
def bits (width : Nat) (v : Int) : Nat := (v.emod (2 ^ width)).toNat

/-- globals.h `InstructionWord`: the bit-field record.  Every field holds
the already-truncated (in-range) value. -/
structure InstructionWord where
  are : Nat
  func : Nat
  dest_reg : Nat
  dest_mode : Nat
  src_reg : Nat
  src_mode : Nat
  op : Nat
  deriving DecidableEq, Repr

/-- globals.h `DataWord`: a 3-bit ARE field and a full-width value (the
`value` member is a plain `unsigned long`, not a bit-field; the 24-bit
reduction happens only when the object file is written). -/
structure DataWord where
  are : Nat
  value : Int
  deriving DecidableEq, Repr

/-- The payload of globals.h `MachineWord` (the union). -/
inductive CellContent
  | code (w : InstructionWord)
  | data (w : DataWord)
  deriving DecidableEq, Repr

/-- globals.h `MachineWord`: `is_instruction` doubles as the length tag of
an instruction group (0 on operand data words). -/
structure MachineWord where
  is_instruction : Nat
  content : CellContent
  deriving DecidableEq, Repr

/-- The `code` array: only populated cells are recorded (index, cell); a
missing index is a NULL slot.  Newer stores shadow older ones, mirroring
array assignment. -/
abbrev CodeImage := List (Nat × MachineWord)

/-- Reading `code[idx]`. -/
def cell_lookup (code : CodeImage) (idx : Nat) : Option MachineWord :=
  (code.find? (fun p => p.1 == idx)).map (fun p => p.2)

/-- Writing `code[idx] = w`. -/
def cell_store (code : CodeImage) (idx : Nat) (w : MachineWord) : CodeImage :=
  (idx, w) :: code

/-- The in-place update `code[idx]->is_instruction = len` used to record an
instruction group's length. -/
def cell_set_length : CodeImage → Nat → Nat → CodeImage
  | [], _, _ => []
  | (i, w) :: rest, idx, len =>
    if i = idx then (i, { w with is_instruction := len }) :: rest
    else (i, w) :: cell_set_length rest idx len

/-- code.c `create_instruction_word`: builds the bit-field record with
`are = ARE_ABSOLUTE`; each store truncates to the field's width. -/
def create_instruction_word (op : OpCode) (fc : FuncCode) (src dest : AddressMode)
    (src_reg dest_reg : Nat) : InstructionWord :=
  { are := ARE_ABSOLUTE
    op := bits 6 (opcodeVal op)
    func := bits 5 (funcVal fc)
    src_mode := bits 2 (amVal src)
    dest_mode := bits 2 (amVal dest)
    src_reg := bits 3 (Int.ofNat src_reg)
    dest_reg := bits 3 (Int.ofNat dest_reg) }

/-- code.c `create_data_word`. -/
def create_data_word (are : Nat) (value : Int) : DataWord :=
  { are := bits 3 (Int.ofNat are), value := value }

/-- Numeric value of a run of decimal digits. -/
def nat_of_digits (s : Str) : Nat := s.foldl (fun a c => a * 10 + (c.toNat - 48)) 0

/-- C `strtol` with base 10 as the sources use it: skip `isspace`, optional
sign, a run of digits.  Returns the value and the suffix at `endptr`; when
no digit is consumed the value is 0 and `endptr` is the original start.
(The LONG_MAX clamping of a real `strtol` is not modelled; the assembler
never feeds it literals of that size.) -/
def strtol10 (s : Str) : Int × Str :=
  let t := s.dropWhile (fun c => isspace_c c)
  let signed : Int × Str :=
    match t with
    | '-' :: r => (-1, r)
    | '+' :: r => (1, r)
    | _ => (1, t)
  let digs := signed.2.takeWhile (fun c => isdigit_c c)
  if digs = [] then (0, s)
  else (signed.1 * Int.ofNat (nat_of_digits digs), signed.2.drop digs.length)

/-- code.c `get_addressing_mode`. -/
def get_addressing_mode (operand : Str) : AddressMode :=
  match operand with
  | '#' :: numstr =>
    if numstr = [] then .NO_ADDRESSING
    else
      let conv := strtol10 numstr
      if conv.2 = [] then .IMMEDIATE else .NO_ADDRESSING
  | '&' :: rest =>
    if is_valid_label rest then .RELATIVE else .NO_ADDRESSING
  | 'r' :: rest =>
    match rest with
    | [d] => if '0' ≤ d && d ≤ '7' then .REGISTER_MODE else .INVALID_ADDR
    | _ => .INVALID_ADDR
  | _ => if is_valid_label operand then .DIRECT else .NO_ADDRESSING

/-- code.c `get_operation_details`: the mnemonic table. -/
def get_operation_details (op_name : Str) : OpCode × FuncCode :=
  if op_name = "mov".toList then (.OP_MOV, .F_NONE)
  else if op_name = "cmp".toList then (.OP_CMP, .F_NONE)
  else if op_name = "add".toList then (.OP_MATH, .F_ADD)
  else if op_name = "sub".toList then (.OP_MATH, .F_SUB)
  else if op_name = "lea".toList then (.OP_LEA, .F_NONE)
  else if op_name = "clr".toList then (.OP_SINGLE, .F_CLR)
  else if op_name = "not".toList then (.OP_SINGLE, .F_NOT)
  else if op_name = "inc".toList then (.OP_SINGLE, .F_INC)
  else if op_name = "dec".toList then (.OP_SINGLE, .F_DEC)
  else if op_name = "jmp".toList then (.OP_JUMPS, .F_JMP)
  else if op_name = "bne".toList then (.OP_JUMPS, .F_BNE)
  else if op_name = "jsr".toList then (.OP_JUMPS, .F_JSR)
  else if op_name = "red".toList then (.OP_RED, .F_NONE)
  else if op_name = "prn".toList then (.OP_PRN, .F_NONE)
  else if op_name = "rts".toList then (.OP_RTS, .F_NONE)
  else if op_name = "stop".toList then (.OP_HALT, .F_NONE)
  else (.OP_INVALID, .F_NONE)

/-- Characters that end an operand token in code.c `parse_operands`. -/
def operand_stop (c : Char) : Bool := c = ' ' || c = ',' || c = '\t' || c = '\n'

/-- The scan loop of code.c `parse_operands`: up to `k` further operands
(the source bound is 2); returns the operands read and the rest of the
line. -/
def parse_operands_loop : Nat → Str → List Str → List Str × Str
  | 0, s, acc => (acc, s)
  | Nat.succ k, s, acc =>
    match s.head? with
    | none => (acc, s)
    | some c =>
      if c = '\n' then (acc, s)
      else
        let tok := s.takeWhile (fun d => !operand_stop d)
        if tok = [] then (acc, s)
        else
          let s1 := skip_whitespace (s.drop tok.length)
          let s2 :=
            match s1 with
            | ',' :: r => skip_whitespace r
            | _ => s1
          parse_operands_loop k s2 (acc ++ [tok])

/-- code.c `parse_operands`: scans at most two operands, rejects leftover
content ("too many operands"), and applies the arity checks for the
zero-operand and two-operand mnemonics.  `none` models returning FALSE. -/
def parse_operands (s : Str) (op_name : Str) : Option (List Str) :=
  let scanned := parse_operands_loop 2 (skip_whitespace s) []
  let leftover :=
    match scanned.2.head? with
    | some c => c != '\n'
    | none => false
  if leftover then none
  else
    let op := (get_operation_details op_name).1
    if (op = .OP_RTS || op = .OP_HALT) && scanned.1.length ≠ 0 then none
    else if (op = .OP_MOV || op = .OP_CMP || op = .OP_MATH || op = .OP_LEA) &&
        scanned.1.length ≠ 2 then none
    else some scanned.1

/-- instructions.c directive kinds (`Directive` in globals.h); `DIR_EXTERN`
in the source is rendered `DIR_EXTERNAL` here. -/
inductive Directive
  | DIR_DATA
  | DIR_EXTERNAL
  | DIR_ENTRY
  | DIR_STRING
  | DIR_NONE
  | DIR_ERROR
  deriving DecidableEq, Repr

/-- instructions.c `get_instruction_type`: a token starting with '.' is
matched by `strncmp` against the four directive names in table order, i.e.
by prefix; the index advances past the matched name.  Returns the directive
kind and the rest of the line. -/
def get_instruction_type (s : Str) : Directive × Str :=
  if s.head? ≠ some '.' then (.DIR_NONE, s)
  else if (".data".toList).isPrefixOf s then (.DIR_DATA, s.drop 5)
  else if (".string".toList).isPrefixOf s then (.DIR_STRING, s.drop 7)
  else if (".entry".toList).isPrefixOf s then (.DIR_ENTRY, s.drop 6)
  else if (".extern".toList).isPrefixOf s then (.DIR_EXTERNAL, s.drop 7)
  else (.DIR_ERROR, s)

/-- instructions.c `is_valid_number`: optional sign followed by at least
one digit and nothing else. -/
def is_valid_number (s : Str) : Bool :=
  match s with
  | [] => false
  | c :: rest =>
    let body := if c = '+' || c = '-' then rest else c :: rest
    !body.isEmpty && body.all (fun d => isdigit_c d)

/-- instructions.c `get_number`: validates with `is_valid_number`, then
converts with `strtol`; `none` models the failure flag. -/
def get_number (s : Str) : Option Int :=
  if is_valid_number s then
    let conv := strtol10 s
    if conv.2 = [] then some conv.1 else none
  else none

/-- The token collection of one iteration of instructions.c
`process_data_inst`: an optional sign character followed by characters up
to a comma or `isspace`.  Returns the token and the rest of the line. -/
def data_number_token (s : Str) : Str × Str :=
  match s with
  | [] => ([], [])
  | c :: rest =>
    if c = '+' || c = '-' then
      let tok := rest.takeWhile (fun d => !(d = ',' || isspace_c d))
      (c :: tok, rest.drop tok.length)
    else
      let tok := (c :: rest).takeWhile (fun d => !(d = ',' || isspace_c d))
      (tok, (c :: rest).drop tok.length)

/-- The comma handling after a number in instructions.c
`process_data_inst`: skip blanks; a comma must follow unless the line ends;
two commas in a row and a trailing comma are errors.  Returns `none` on
error, otherwise the rest of the line to continue with. -/
def data_after_number (s : Str) : Option Str :=
  let t := skip_whitespace s
  match t with
  | ',' :: r =>
    let u := skip_whitespace r
    match u.head? with
    | some c => if c = ',' || c = '\n' then none else some u
    | none => none
  | c :: _ => if c = '\n' then some t else none
  | [] => some t

/-- The number loop of instructions.c `process_data_inst`.  `fuel` bounds
the recursion (the C loop consumes at least one character per iteration, so
`fuel = length + 1` is always enough); exhausting it returns failure. -/
def process_data_loop : Nat → Str → List Int → Nat → Bool × List Int × Nat
  | 0, _, data, dc => (false, data, dc)
  | Nat.succ fuel, s, data, dc =>
    match s.head? with
    | none => (true, data, dc)
    | some c0 =>
      if c0 = '\n' then (true, data, dc)
      else
        let scanned := data_number_token s
        let numStr := scanned.1
        let s1 := scanned.2
        let body :=
          match numStr with
          | c :: rest => if c = '+' || c = '-' then rest else c :: rest
          | [] => []
        if !body.all (fun d => isdigit_c d) then (false, data, dc)
        else if numStr.isEmpty then (false, data, dc)
        else if body.isEmpty then (false, data, dc)
        else
          match get_number numStr with
          | none => (false, data, dc)
          | some value =>
            let data1 := data ++ [value]
            let dc1 := dc + 1
            match data_after_number s1 with
            | none => (false, data1, dc1)
            | some s2 => process_data_loop fuel s2 data1 dc1

/-- instructions.c `process_data_inst`: rejects an empty directive, then
runs the number loop.  The data image and DC are threaded through even on
failure, matching the C mutation order. -/
def process_data_inst (s : Str) (data : List Int) (dc : Nat) : Bool × List Int × Nat :=
  let t := skip_whitespace s
  match t.head? with
  | none => (false, data, dc)
  | some c0 =>
    if c0 = '\n' then (false, data, dc)
    else process_data_loop (t.length + 1) t data dc

/-- The character loop of instructions.c `process_string_inst`: stores
each character until the closing quote; a newline before it is the
unterminated-string error, reaching the terminator without a quote is the
missing-closing-quote error.  On success returns the rest after the
quote. -/
def string_chars_loop : Str → List Int → Nat → Option Str × List Int × Nat
  | [], data, dc => (none, data, dc)
  | c :: rest, data, dc =>
    if c = '"' then (some rest, data, dc)
    else if c = '\n' then (none, data, dc)
    else string_chars_loop rest (data ++ [Int.ofNat c.toNat]) (dc + 1)

/-- instructions.c `process_string_inst`. -/
def process_string_inst (s : Str) (data : List Int) (dc : Nat) : Bool × List Int × Nat :=
  let t := skip_whitespace s
  match t with
  | '"' :: rest =>
    match string_chars_loop rest data dc with
    | (none, d, k) => (false, d, k)
    | (some after, d, k) =>
      let d2 := d ++ [0]
      let k2 := k + 1
      let u := skip_whitespace after
      match u.head? with
      | none => (true, d2, k2)
      | some c => if c = '\n' then (true, d2, k2) else (false, d2, k2)
  | _ => (false, data, dc)

/-- instructions.c `process_extern_inst`: scans the operand label,
validates it, and calls `add_symbol` with address 0 and the Extern kind
*discarding its result* (a duplicate is silently ignored), then rejects
trailing content. -/
def process_extern_inst (s : Str) (symbols : SymbolTable) : Bool × SymbolTable :=
  let t := skip_whitespace s
  let label := t.takeWhile (fun c => !isspace_c c)
  let rest := t.drop label.length
  if !is_valid_label label then (false, symbols)
  else
    let symbols2 := (add_symbol symbols label 0 .SYMBOL_EXTERNAL).2
    let u := skip_whitespace rest
    match u.head? with
    | none => (true, symbols2)
    | some c => if c = '\n' then (true, symbols2) else (false, symbols2)

/-- The assembler state threaded through the first pass (the locals of
assembler.c `process_file`). -/
structure Asm where
  ic : Nat
  dc : Nat
  code : CodeImage
  data : List Int
  symbols : SymbolTable
  deriving DecidableEq, Repr

/-- The fresh state of a job. -/
def initAsm : Asm := { ic := START_IC, dc := 0, code := [], data := [], symbols := [] }

/-- The mnemonic scan of first_pass.c `process_code_line`: up to
`MAX_OP_LEN = 4` characters, stopping at a blank, tab or newline. -/
def op_token (s : Str) : Str :=
  (s.takeWhile (fun c => !(c = ' ' || c = '\t' || c = '\n'))).take 4

/-- `operands[i][1] - '0'`: the register digit of a register operand. -/
def reg_digit (o : Str) : Nat := (char_at o 1).toNat - 48

/-- The mode/register assignment block of first_pass.c `process_code_line`.
For zero operands the C code assigns the integer 0 — the value of the
`IMMEDIATE` enumerator — to both mode fields; an unreachable single-operand
case leaves the declared initial value `NO_ADDRESSING`. -/
def operand_fields (opcode : OpCode) (ops : List Str) :
    AddressMode × AddressMode × Nat × Nat :=
  match ops with
  | [] => (.IMMEDIATE, .IMMEDIATE, 0, 0)
  | [o1] =>
    if opcode = .OP_SINGLE || opcode = .OP_JUMPS || opcode = .OP_RED then
      let dm := get_addressing_mode o1
      (.IMMEDIATE, dm, 0, if dm = .REGISTER_MODE then reg_digit o1 else 0)
    else if opcode = .OP_PRN then
      let sm := get_addressing_mode o1
      (sm, .IMMEDIATE, if sm = .REGISTER_MODE then reg_digit o1 else 0, 0)
    else (.NO_ADDRESSING, .NO_ADDRESSING, 0, 0)
  | o1 :: o2 :: _ =>
    let sm := get_addressing_mode o1
    let dm := get_addressing_mode o2
    (sm, dm,
      if sm = .REGISTER_MODE then reg_digit o1 else 0,
      if dm = .REGISTER_MODE then reg_digit o2 else 0)

/-- first_pass.c `handle_extra_words`: an immediate operand is encoded at
once, a direct operand reserves one NULL cell, a relative operand reserves
one cell only for the jump group (otherwise only an error is printed and
nothing advances); registers contribute nothing. -/
def handle_extra_words (code : CodeImage) (ic : Nat) (operand : Str) (opcode : OpCode) :
    CodeImage × Nat :=
  match get_addressing_mode operand with
  | .IMMEDIATE =>
    let value := (strtol10 (operand.drop 1)).1
    (cell_store code (ic - START_IC)
      { is_instruction := 0, content := .data (create_data_word ARE_ABSOLUTE value) }, ic + 1)
  | .DIRECT => (code, ic + 1)
  | .RELATIVE => if opcode ≠ .OP_JUMPS then (code, ic) else (code, ic + 1)
  | _ => (code, ic)

/-- first_pass.c `process_code_line`. -/
def process_code_line (s : Str) (ic : Nat) (code : CodeImage) : Bool × Nat × CodeImage :=
  let op := op_token s
  let rest := s.drop op.length
  let details := get_operation_details op
  let opcode := details.1
  let func := details.2
  if opcode = .OP_INVALID then (false, ic, code)
  else
    match parse_operands rest op with
    | none => (false, ic, code)
    | some ops =>
      if (opcode = .OP_SINGLE || opcode = .OP_JUMPS || opcode = .OP_RED || opcode = .OP_PRN) &&
          ops.length ≠ 1 then (false, ic, code)
      else
        let fields := operand_fields opcode ops
        let src_mode := fields.1
        let dest_mode := fields.2.1
        let src_reg := fields.2.2.1
        let dest_reg := fields.2.2.2
        if src_mode = .INVALID_ADDR || dest_mode = .INVALID_ADDR then (false, ic, code)
        else
          let inst := create_instruction_word opcode func src_mode dest_mode src_reg dest_reg
          let code1 := cell_store code (ic - START_IC) { is_instruction := 1, content := .code inst }
          let ic1 := ic + 1
          let stepped :=
            match ops with
            | [] => (code1, ic1)
            | [o1] => handle_extra_words code1 ic1 o1 opcode
            | o1 :: o2 :: _ =>
              let first := handle_extra_words code1 ic1 o1 opcode
              handle_extra_words first.1 first.2 o2 opcode
          (true, stepped.2, cell_set_length stepped.1 (ic - START_IC) (stepped.2 - ic))

/-- The directive/instruction dispatch of first_pass.c
`process_line_first_pass`, after the label has been handled; `s` is the
line at the current index. -/
def first_pass_dispatch (labelOpt : Option Str) (s : Str) (st : Asm) : Bool × Asm :=
  match s.head? with
  | none => (true, st)
  | some _ =>
    let parsed := get_instruction_type s
    let dir := parsed.1
    if dir = .DIR_ERROR then (false, st)
    else
      let s2 := skip_whitespace parsed.2
      if dir ≠ .DIR_NONE then
        let st1 :=
          if dir = .DIR_DATA || dir = .DIR_STRING then
            match labelOpt with
            | some sym =>
              { st with symbols := (add_symbol st.symbols sym (Int.ofNat st.dc) .SYMBOL_DATA).2 }
            | none => st
          else st
        match dir with
        | .DIR_STRING =>
          let r := process_string_inst s2 st1.data st1.dc
          (r.1, { st1 with data := r.2.1, dc := r.2.2 })
        | .DIR_DATA =>
          let r := process_data_inst s2 st1.data st1.dc
          (r.1, { st1 with data := r.2.1, dc := r.2.2 })
        | .DIR_EXTERNAL =>
          let r := process_extern_inst s2 st1.symbols
          (r.1, { st1 with symbols := r.2 })
        | .DIR_ENTRY =>
          match labelOpt with
          | some _ => (false, st1)
          | none => (true, st1)
        | _ => (true, st1)
      else
        let st1 :=
          match labelOpt with
          | some sym =>
            { st with symbols := (add_symbol st.symbols sym (Int.ofNat st.ic) .SYMBOL_CODE).2 }
          | none => st
        let r := process_code_line s2 st1.ic st1.code
        (r.1, { st1 with ic := r.2.1, code := r.2.2 })

/-- first_pass.c `process_line_first_pass`. -/
def process_line_first_pass (line : Str) (st : Asm) : Bool × Asm :=
  let t := skip_whitespace line
  match t.head? with
  | none => (true, st)
  | some c0 =>
    if c0 = '\n' || c0 = ';' then (true, st)
    else
      match get_label line with
      | some sym =>
        if !is_valid_label sym then (false, st)
        else if (find_symbol st.symbols sym).isSome then (false, st)
        else first_pass_dispatch (some sym) (skip_whitespace (after_colon line)) st
      | none => first_pass_dispatch none t st

/-- The first-pass loop of assembler.c `process_file` (fail-fast). -/
def run_first_pass : List Str → Asm → Bool × Asm
  | [], st => (true, st)
  | l :: ls, st =>
    let r := process_line_first_pass l st
    if r.1 then run_first_pass ls r.2 else (false, r.2)

/-- The between-pass rebase loop of assembler.c `process_file`: every
Data-kind symbol's address is incremented by the final IC. -/
def rebase_data_symbols (symbols : SymbolTable) (final_ic : Nat) : SymbolTable :=
  symbols.map (fun e =>
    if e.type = .SYMBOL_DATA then { e with address := e.address + Int.ofNat final_ic } else e)

/-- utils.c `str_chr(line, c)` used as a containment test. -/
def str_chr_colon (s : Str) : Bool := s.any (fun c => c = ':')

/-- The label-token scan of the second pass (characters up to ' ', '\t' or
'\n'). -/
def entry_label_token (s : Str) : Str :=
  s.takeWhile (fun c => !(c = ' ' || c = '\t' || c = '\n'))

/-- The `&`-stripping of second_pass.c on the `.entry` argument. -/
def strip_amp (s : Str) : Str :=
  match s with
  | '&' :: r => r
  | _ => s

/-- Overwrites the kind of the first entry with the given name and kind
(the in-place `entry->type = SYMBOL_ENTRY` behind the pointer returned by
`find_symbol_by_type`). -/
def set_first_entry_type : SymbolTable → Str → SymbolType → SymbolTable
  | [], _, _ => []
  | e :: rest, name, t =>
    if e.name == name && e.type == t then { e with type := .SYMBOL_ENTRY } :: rest
    else e :: set_first_entry_type rest name t

/-- The `.entry` promotion of second_pass.c `process_line_second_pass`:
idempotent on an Entry symbol; otherwise the first Code entry, or failing
that the first Data entry, has its kind overwritten with Entry; when
neither exists the call fails (covering both the extern-conflict and the
undefined-symbol errors). -/
def promote_to_entry_kind (symbols : SymbolTable) (label : Str) : Bool × SymbolTable :=
  if (find_symbol_by_type symbols label .SYMBOL_ENTRY).isSome then (true, symbols)
  else if (find_symbol_by_type symbols label .SYMBOL_CODE).isSome then
    (true, set_first_entry_type symbols label .SYMBOL_CODE)
  else if (find_symbol_by_type symbols label .SYMBOL_DATA).isSome then
    (true, set_first_entry_type symbols label .SYMBOL_DATA)
  else (false, symbols)

/-- second_pass.c `get_opcode_from_line`: skips a label when the line
contains a colon, then reads the mnemonic. -/
def get_opcode_from_line (line : Str) : OpCode :=
  let t := if str_chr_colon line then (line.dropWhile (fun c => c != ':')).drop 1 else line
  (get_operation_details (op_token (skip_whitespace t))).1

/-- second_pass.c `process_operand_second_pass`.  Returns the success flag
and the updated current IC, code image and symbol table. -/
def process_operand_second_pass (curr_ic start_ic : Nat) (operand : Str) (code : CodeImage)
    (symbols : SymbolTable) (opcode : OpCode) : Bool × Nat × CodeImage × SymbolTable :=
  match get_addressing_mode operand with
  | .IMMEDIATE => (true, curr_ic + 1, code, symbols)
  | .REGISTER_MODE => (true, curr_ic, code, symbols)
  | .DIRECT =>
    match find_symbol symbols operand with
    | none => (false, curr_ic, code, symbols)
    | some sym =>
      let are_value := if sym.type = .SYMBOL_EXTERNAL then ARE_EXTERNAL else ARE_RELOCATABLE
      let symbols2 :=
        if sym.type = .SYMBOL_EXTERNAL then
          symbols ++
            [{ name := operand, address := Int.ofNat (curr_ic + 1), type := .SYMBOL_EXTERNAL }]
        else symbols
      let word : MachineWord :=
        { is_instruction := 0, content := .data (create_data_word are_value sym.address) }
      (true, curr_ic + 1, cell_store code (curr_ic + 1 - START_IC) word, symbols2)
  | .RELATIVE =>
    match find_symbol symbols (operand.drop 1) with
    | none => (false, curr_ic, code, symbols)
    | some sym =>
      if opcode ≠ .OP_JUMPS then (false, curr_ic, code, symbols)
      else if sym.type ≠ .SYMBOL_CODE then (false, curr_ic, code, symbols)
      else
        let word : MachineWord :=
          { is_instruction := 0
            content := .data (create_data_word ARE_ABSOLUTE (sym.address - Int.ofNat start_ic)) }
        (true, curr_ic + 1, cell_store code (curr_ic + 1 - START_IC) word, symbols)
  | _ => (true, curr_ic, code, symbols)

/-- second_pass.c `resolve_symbols`: reads the instruction's length tag,
skips label and mnemonic, re-parses the operands (with an empty mnemonic,
so no arity check applies) and resolves each; the IC advances by the length
tag.  A missing cell (a NULL dereference in the C) is read as tag 0; it is
unreachable after a successful first pass. -/
def resolve_symbols (line : Str) (ic : Nat) (code : CodeImage) (symbols : SymbolTable) :
    Bool × Nat × CodeImage × SymbolTable :=
  let inst_len :=
    match cell_lookup code (ic - START_IC) with
    | some w => w.is_instruction
    | none => 0
  let afterLabel :=
    match get_label line with
    | some _ => (line.dropWhile (fun c => c != ':')).drop 1
    | none => line
  let s := skip_whitespace afterLabel
  let opcode := get_opcode_from_line line
  let s1 := s.dropWhile (fun c => !(c = ' ' || c = '\t' || c = '\n'))
  let s2 := skip_whitespace s1
  match parse_operands s2 [] with
  | none => (false, ic, code, symbols)
  | some ops =>
    match ops with
    | [] => (true, ic + inst_len, code, symbols)
    | [o1] =>
      let r := process_operand_second_pass ic ic o1 code symbols opcode
      (r.1, ic + inst_len, r.2.2.1, r.2.2.2)
    | o1 :: o2 :: _ =>
      let r1 := process_operand_second_pass ic ic o1 code symbols opcode
      if r1.1 then
        let r2 := process_operand_second_pass r1.2.1 ic o2 r1.2.2.1 r1.2.2.2 opcode
        (r2.1, ic + inst_len, r2.2.2.1, r2.2.2.2)
      else (false, ic + inst_len, r1.2.2.1, r1.2.2.2)

/-- second_pass.c `process_line_second_pass`. -/
def process_line_second_pass (line : Str) (ic : Nat) (code : CodeImage)
    (symbols : SymbolTable) : Bool × Nat × CodeImage × SymbolTable :=
  let t0 := skip_whitespace line
  match t0.head? with
  | none => (true, ic, code, symbols)
  | some c0 =>
    if c0 = ';' || c0 = '\n' then (true, ic, code, symbols)
    else
      let s :=
        skip_whitespace
          (if str_chr_colon line then (t0.dropWhile (fun c => c != ':')).drop 1 else t0)
      if s.head? = some '.' then
        if (".entry".toList).isPrefixOf s then
          let rest := skip_whitespace (s.drop 6)
          match rest.head? with
          | none => (false, ic, code, symbols)
          | some _ =>
            let label := strip_amp (entry_label_token rest)
            let r := promote_to_entry_kind symbols label
            (r.1, ic, code, r.2)
        else (true, ic, code, symbols)
      else resolve_symbols line ic code symbols

/-- The second-pass loop of assembler.c `process_file` (fail-fast). -/
def run_second_pass : List Str → Nat → CodeImage → SymbolTable →
    Bool × Nat × CodeImage × SymbolTable
  | [], ic, code, symbols => (true, ic, code, symbols)
  | l :: ls, ic, code, symbols =>
    let r := process_line_second_pass l ic code symbols
    if r.1 then run_second_pass ls r.2.1 r.2.2.1 r.2.2.2 else (false, r.2.1, r.2.2.1, r.2.2.2)

/-- The character for a digit value below 16, as printf's `%x` produces it
(decimal digits, then lowercase letters). -/
def digit_char (d : Nat) : Char :=
  if d < 10 then Char.ofNat (48 + d) else Char.ofNat (87 + d)

/-- Exactly `k` digits of `n` in the given base, most significant first
(the value is implicitly reduced modulo `base ^ k`). -/
def digitsPad (base : Nat) : Nat → Nat → Str
  | 0, _ => []
  | Nat.succ k, n => digit_char (n / base ^ k % base) :: digitsPad base k n

/-- The decimal digits of `n` (what printf's `%ld` prints for a
nonnegative long), via the fuel-based digit printer of the core library. -/
def dec_digits (n : Nat) : Str := Nat.toDigits 10 n

/-- printf `%07ld` for a nonnegative value: at least seven digits,
zero-padded. -/
def fmt_long7 (n : Nat) : Str :=
  if n < 10 ^ 7 then digitsPad 10 7 n else dec_digits n

/-- writefiles.c `encode_number`: `sprintf(buf, "%06lx", num & 0xFFFFFF)` —
six lowercase hexadecimal digits of the masked word. -/
def encode_number (n : Nat) : Str := digitsPad 16 6 (n % 16777216)

/-- writefiles.c `encode_binary`: the 24 bits of the word from bit 23 down,
as '0'/'1' characters. -/
def encode_binary (n : Nat) : Str := digitsPad 2 24 n

/-- The instruction-word packing of writefiles.c `write_object_file` (the
shifted fields are disjoint, so the C bitwise-or is a sum). -/
def encode_instruction (w : InstructionWord) : Nat :=
  w.op * 2 ^ 18 + w.src_mode * 2 ^ 16 + w.src_reg * 2 ^ 13 + w.dest_mode * 2 ^ 11 +
    w.dest_reg * 2 ^ 8 + w.func * 2 ^ 3 + w.are

/-- The data-word packing `(data->value << 3) | data->are` of
writefiles.c, reduced to 24 bits as `encode_number`/`encode_binary` read
it; the C `unsigned long` arithmetic wraps modulo 2^64, which agrees with
this modulo 2^24 on the emitted bits. -/
def data_word_value (w : DataWord) : Nat :=
  ((w.value * 8 + Int.ofNat w.are).emod 16777216).toNat

/-- The 24-bit word a populated code cell contributes to the object file. -/
def cell_word : MachineWord → Nat
  | { is_instruction := _, content := .code w } => encode_instruction w
  | { is_instruction := _, content := .data w } => data_word_value w

/-- One body line of the object file:
`fprintf(fp, "%07ld %s %s\n", addr, encoded, binary)` — the address, the
hexadecimal field *and* the binary field. -/
def ob_line (addr : Nat) (word : Nat) : Str :=
  fmt_long7 addr ++ ' ' :: (encode_number word ++ ' ' :: encode_binary word)

/-- The header line `<code size> <data size>` of the object file. -/
def ob_header (ic dc : Nat) : Str := dec_digits (ic - START_IC) ++ ' ' :: dec_digits dc

/-- The code-section loop of writefiles.c `write_object_file`: one line per
*populated* cell, in index order. -/
def ob_code_lines (code : CodeImage) (ic : Nat) : List Str :=
  (List.range (ic - START_IC)).filterMap (fun addr =>
    (cell_lookup code addr).map (fun cell => ob_line (addr + START_IC) (cell_word cell)))

/-- The 24-bit mask `data[addr] & 0xFFFFFF` applied to a data-image value
(two's complement for negatives). -/
def mask24 (v : Int) : Nat := (v.emod 16777216).toNat

/-- The data-section loop of writefiles.c `write_object_file`: the bare
masked value, no shift, no ARE bits; addresses continue at the final IC. -/
def ob_data_lines (data : List Int) (ic dc : Nat) : List Str :=
  (List.range dc).map (fun addr => ob_line (addr + ic) (mask24 (data.getD addr 0)))

/-- writefiles.c `write_object_file`: header, code lines, data lines. -/
def write_object_file (code : CodeImage) (data : List Int) (ic dc : Nat) : List Str :=
  ob_header ic dc :: (ob_code_lines code ic ++ ob_data_lines data ic dc)

/-- One line of the `.ent`/`.ext` files: `"%s %07ld\n"` (all addresses
written in reachable states are nonnegative). -/
def symbol_line (e : SymbolEntry) : Str := e.name ++ ' ' :: fmt_long7 e.address.toNat

/-- writefiles.c `write_entry_file`: produced only when an Entry symbol
exists; one line per Entry symbol in insertion order. -/
def write_entry_file (symbols : SymbolTable) : Option (List Str) :=
  let es := symbols.filter (fun e => e.type == .SYMBOL_ENTRY)
  if es.isEmpty then none else some (es.map symbol_line)

/-- writefiles.c `write_extern_file`: produced only when an Extern entry
with a non-zero address (a reference site) exists; one line per such entry
in insertion order. -/
def write_extern_file (symbols : SymbolTable) : Option (List Str) :=
  let es := symbols.filter (fun e => e.type == .SYMBOL_EXTERNAL && e.address != 0)
  if es.isEmpty then none else some (es.map symbol_line)

/-- The artifacts of a successful job. -/
structure Artifacts where
  ob : List Str
  ent : Option (List Str)
  ext : Option (List Str)
  deriving DecidableEq, Repr

/-- assembler.c `process_file` from the expanded source on: first pass,
rebase of the Data symbols by the final IC, second pass, artifact
writing.  `none` models a failed job (no artifacts). -/
def process_file (lines : List Str) : Option Artifacts :=
  let first := run_first_pass lines initAsm
  if !first.1 then none
  else
    let st := first.2
    let symbols1 := rebase_data_symbols st.symbols st.ic
    let second := run_second_pass lines START_IC st.code symbols1
    if !second.1 then none
    else
      some
        { ob := write_object_file second.2.2.1 st.data second.2.1 st.dc
          ent := write_entry_file second.2.2.2
          ext := write_extern_file second.2.2.2 }

/-- preprocessor.c upper bound on the number of macros. -/
def MAX_MACROS : Nat := 50

/-- preprocessor.c upper bound on body lines per macro. -/
def MAX_MACRO_LINES : Nat := 100

/-- preprocessor.c `Macro`: a name and the recorded body lines. -/
structure MacroDef where
  name : Str
  lines : List Str
  deriving DecidableEq, Repr

/-- The reserved words rejected by preprocessor.c `is_valid_macro_name`. -/
def reserved_names : List Str :=
  ["mcro", "mcroend", ".data", ".string", ".entry", ".extern",
   "mov", "cmp", "add", "sub", "lea", "clr", "not", "inc",
   "dec", "jmp", "bne", "jsr", "red", "prn", "rts", "stop"].map String.toList

/-- preprocessor.c `is_valid_macro_name`: a letter followed by letters,
digits or underscores, and not a reserved word. -/
def is_valid_macro_name (name : Str) : Bool :=
  match name with
  | [] => false
  | c :: rest =>
    isalpha_c c && rest.all (fun d => isalnum_c d || d = '_') &&
      !(reserved_names.contains name)

/-- preprocessor.c `find_macro`. -/
def find_macro_def (ms : List MacroDef) (name : Str) : Option MacroDef :=
  ms.find? (fun m => m.name == name)

/-- preprocessor.c `add_macro`: table-full, invalid-name and duplicate-name
checks, then a tail append of an empty-bodied macro. -/
def add_macro_def (ms : List MacroDef) (name : Str) : Bool × List MacroDef :=
  if MAX_MACROS ≤ ms.length then (false, ms)
  else if !is_valid_macro_name name then (false, ms)
  else if (find_macro_def ms name).isSome then (false, ms)
  else (true, ms ++ [{ name := name, lines := [] }])

/-- preprocessor.c `add_line_to_macro`: appends the raw line to the macro
defined last (`macros[macro_count - 1]`), failing when none exists or its
body is full. -/
def add_line_to_macro_def (ms : List MacroDef) (l : Str) : Bool × List MacroDef :=
  match ms.getLast? with
  | none => (false, ms)
  | some m =>
    if MAX_MACRO_LINES ≤ m.lines.length then (false, ms)
    else (true, ms.dropLast ++ [{ m with lines := m.lines ++ [l] }])

/-- The `mcro` recognition of preprocessor.c `preprocess_file`:
`strncmp(trimmed + i, "mcro", 4) == 0` and the following character is
`isspace` or the terminator. -/
def mcro_starts (t : Str) : Bool :=
  ("mcro".toList).isPrefixOf t && (isspace_c (char_at t 4) || char_at t 4 = Char.ofNat 0)

/-- The `mcroend` recognition of preprocessor.c `preprocess_file`. -/
def mcroend_starts (t : Str) : Bool :=
  ("mcroend".toList).isPrefixOf t && (isspace_c (char_at t 7) || char_at t 7 = Char.ofNat 0)

/-- The preprocessor state: the macro table, the inside-a-definition flag
(`in_macro` in the source) and the output lines written so far. -/
structure PPState where
  macros : List MacroDef
  inside : Bool
  out : List Str
  deriving DecidableEq, Repr

/-- One iteration of the line loop of preprocessor.c `preprocess_file`.
Empty and comment lines are copied verbatim (even inside a macro body);
then the `mcro` / `mcroend` / body / usage dispatch runs on the trimmed
line.  A macro invocation is recognized only when the whole trimmed line
equals a recorded name. -/
def preprocess_line (l : Str) (st : PPState) : Bool × PPState :=
  let t := str_trim l
  match t.head? with
  | none => (true, { st with out := st.out ++ [l] })
  | some c0 =>
    if c0 = ';' then (true, { st with out := st.out ++ [l] })
    else
      let t1 := skip_whitespace t
      if mcro_starts t1 then
        if st.inside then (false, st)
        else
          let r := skip_whitespace (t1.drop 4)
          let name := r.takeWhile (fun c => !isspace_c c)
          if name.isEmpty then (false, st)
          else if !(skip_whitespace (r.drop name.length)).isEmpty then (false, st)
          else
            let added := add_macro_def st.macros name
            if added.1 then (true, { st with macros := added.2, inside := true })
            else (false, st)
      else if mcroend_starts t1 then
        if !st.inside then (false, st)
        else if !(skip_whitespace (t1.drop 7)).isEmpty then (false, st)
        else (true, { st with inside := false })
      else if st.inside then
        let added := add_line_to_macro_def st.macros l
        (added.1, { st with macros := added.2 })
      else
        match find_macro_def st.macros t1 with
        | some m => (true, { st with out := st.out ++ m.lines })
        | none => (true, { st with out := st.out ++ [l] })

/-- The line loop of preprocessor.c `preprocess_file` (fail-fast: an error
breaks out and nothing further is written). -/
def preprocess_go : List Str → PPState → Bool × PPState
  | [], st => (true, st)
  | l :: ls, st =>
    let r := preprocess_line l st
    if r.1 then preprocess_go ls r.2 else (false, r.2)

/-- preprocessor.c `preprocess_file` on the lines of the `.as` input:
returns the success flag (including the unclosed-definition check at end
of file) and the lines of the `.am` output written. -/
def preprocess_file (lines : List Str) : Bool × List Str :=
  let r := preprocess_go lines { macros := [], inside := false, out := [] }
  (r.1 && !r.2.inside, r.2.out)

/-! Helper notions and facts used by several verification theorems. -/

/-- A lowercase hexadecimal digit as `%x` prints them. -/
def is_lower_hex (c : Char) : Bool := isdigit_c c || ('a' ≤ c && c ≤ 'f')

theorem digitsPad_length (base k n : Nat) : (digitsPad base k n).length = k := by
  induction k generalizing n with
  | zero => rfl
  | succ k ih => simp [digitsPad, ih]

theorem digit_char_hex : ∀ d : Fin 16, is_lower_hex (digit_char d.val) = true := by decide

theorem digit_char_dec : ∀ d : Fin 10, isdigit_c (digit_char d.val) = true := by decide

theorem digit_char_bin : ∀ d : Fin 2, digit_char d.val = '0' ∨ digit_char d.val = '1' := by decide

theorem digitsPad_hex_mem (k n : Nat) : ∀ c ∈ digitsPad 16 k n, is_lower_hex c = true := by
  induction k generalizing n with
  | zero => intro c hc; simp [digitsPad] at hc
  | succ k ih =>
    intro c hc
    simp only [digitsPad, List.mem_cons] at hc
    rcases hc with h | h
    · subst h; exact digit_char_hex ⟨n / 16 ^ k % 16, Nat.mod_lt _ (by norm_num)⟩
    · exact ih n c h

theorem digitsPad_dec_mem (k n : Nat) : ∀ c ∈ digitsPad 10 k n, isdigit_c c = true := by
  induction k generalizing n with
  | zero => intro c hc; simp [digitsPad] at hc
  | succ k ih =>
    intro c hc
    simp only [digitsPad, List.mem_cons] at hc
    rcases hc with h | h
    · subst h; exact digit_char_dec ⟨n / 10 ^ k % 10, Nat.mod_lt _ (by norm_num)⟩
    · exact ih n c h

theorem digitsPad_bin_mem (k n : Nat) : ∀ c ∈ digitsPad 2 k n, c = '0' ∨ c = '1' := by
  induction k generalizing n with
  | zero => intro c hc; simp [digitsPad] at hc
  | succ k ih =>
    intro c hc
    simp only [digitsPad, List.mem_cons] at hc
    rcases hc with h | h
    · subst h; exact digit_char_bin ⟨n / 2 ^ k % 2, Nat.mod_lt _ (by norm_num)⟩
    · exact ih n c h

/-- Scenario S5 of the specification: a forward data reference. -/
def s5_lines : List Str :=
  ["MAIN: mov X, r1\n".toList, "stop\n".toList, "X: .data 7\n".toList]

/-- The first-pass result on S5. -/
def s5_first : Bool × Asm := run_first_pass s5_lines initAsm

/-- The rebased symbol table of S5. -/
def s5_symbols : SymbolTable := rebase_data_symbols s5_first.2.symbols s5_first.2.ic

/-- The second-pass result on S5. -/
def s5_second : Bool × Nat × CodeImage × SymbolTable :=
  run_second_pass s5_lines START_IC s5_first.2.code s5_symbols

/-- C1: at the pass boundary every Data-kind symbol's address is
incremented by the final instruction counter while the other kinds are
unchanged; a direct reference to a non-external symbol is resolved in the
second pass to a data word holding the symbol's (rebased) address with
ARE = Relocatable; and on scenario S5 the object header is `3 1`, `X` is
rebased to 103 and the reserved cell at address 101 holds
`(103 << 3) | 2`. -/
theorem claim_C1 :
    (∀ (symbols : SymbolTable) (final_ic : Nat),
      List.Forall₂ (fun e e1 : SymbolEntry =>
          e1.name = e.name ∧
          e1.address =
            (if e.type = .SYMBOL_DATA then e.address + Int.ofNat final_ic else e.address))
        symbols (rebase_data_symbols symbols final_ic)) ∧
    (∀ (curr_ic start_ic : Nat) (operand : Str) (code : CodeImage) (symbols : SymbolTable)
        (opcode : OpCode) (sym : SymbolEntry),
      get_addressing_mode operand = .DIRECT →
      find_symbol symbols operand = some sym →
      sym.type ≠ .SYMBOL_EXTERNAL →
      process_operand_second_pass curr_ic start_ic operand code symbols opcode =
        (true, curr_ic + 1,
          cell_store code (curr_ic + 1 - START_IC)
            { is_instruction := 0,
              content := .data (create_data_word ARE_RELOCATABLE sym.address) },
          symbols)) ∧
    (process_file s5_lines).map (fun a => a.ob.head?) = some (some ("3 1".toList)) ∧
    find_symbol s5_symbols ("X".toList) =
      some { name := "X".toList, address := 103, type := .SYMBOL_DATA } ∧
    cell_lookup s5_second.2.2.1 1 =
      some { is_instruction := 0,
             content := .data (create_data_word ARE_RELOCATABLE 103) } ∧
    (process_file s5_lines).map (fun a => a.ob.get? 2) =
      some (some (ob_line 101 (103 * 8 + 2))) := by
  refine ⟨?_, ?_, ?_, ?_, ?_, ?_⟩
  · intro symbols final_ic
    induction symbols with
    | nil => simp [rebase_data_symbols]
    | cons e es ih =>
      simp only [rebase_data_symbols, List.map_cons, List.forall₂_cons] at ih ⊢
      refine ⟨?_, ih⟩
      by_cases h : e.type = .SYMBOL_DATA <;> simp [h]
  · intro curr_ic start_ic operand code symbols opcode sym hmode hfind hext
    simp only [process_operand_second_pass, hmode, hfind]
    simp [hext, ARE_RELOCATABLE]
  · decide
  · decide
  · decide
  · decide

/-- Witness for C1: the direct-reference clause applied at a concrete
non-external symbol. -/
theorem claim_C1_witness :
    process_operand_second_pass 100 100 ("X".toList) []
        [{ name := "X".toList, address := 103, type := .SYMBOL_DATA }] .OP_MOV =
      (true, 101,
        cell_store [] 1
          { is_instruction := 0,
            content := .data (create_data_word ARE_RELOCATABLE 103) },
        [{ name := "X".toList, address := 103, type := .SYMBOL_DATA }]) :=
  claim_C1.2.1 100 100 ("X".toList) []
    [{ name := "X".toList, address := 103, type := .SYMBOL_DATA }] .OP_MOV
    { name := "X".toList, address := 103, type := .SYMBOL_DATA }
    (by decide) (by decide) (by decide)

/-- Scenario S6 of the specification: an external reference. -/
def s6_lines : List Str := [".extern K\n".toList, "jmp K\n".toList, "stop\n".toList]

/-- The second-pass result on S6. -/
def s6_second : Bool × Nat × CodeImage × SymbolTable :=
  run_second_pass s6_lines START_IC (run_first_pass s6_lines initAsm).2.code
    (rebase_data_symbols (run_first_pass s6_lines initAsm).2.symbols
      (run_first_pass s6_lines initAsm).2.ic)

/-- The filter selecting the external reference sites (Extern entries with
a non-zero address) of `write_extern_file`. -/
def extern_ref_sites (symbols : SymbolTable) : SymbolTable :=
  symbols.filter (fun e => e.type == .SYMBOL_EXTERNAL && e.address != 0)

/-- C2: a direct reference to an external symbol is resolved to a data word
holding the declaration's address with ARE = External and appends exactly
one Extern reference entry whose address is the address of the reserved
cell; every symbol planted by `.extern` has address 0; the `.ext` artifact
exists iff a reference-site entry exists and lists exactly those entries in
insertion order; and on scenario S6 no `.ent` file is produced, `.ext` is
the single line `K 0000101`, and the cell at address 101 holds
`(0 << 3) | 1`. -/
theorem claim_C2 :
    (∀ (curr_ic start_ic : Nat) (operand : Str) (code : CodeImage) (symbols : SymbolTable)
        (opcode : OpCode) (sym : SymbolEntry),
      get_addressing_mode operand = .DIRECT →
      find_symbol symbols operand = some sym →
      sym.type = .SYMBOL_EXTERNAL →
      process_operand_second_pass curr_ic start_ic operand code symbols opcode =
        (true, curr_ic + 1,
          cell_store code (curr_ic + 1 - START_IC)
            { is_instruction := 0,
              content := .data (create_data_word ARE_EXTERNAL sym.address) },
          symbols ++
            [{ name := operand, address := Int.ofNat (curr_ic + 1),
               type := .SYMBOL_EXTERNAL }])) ∧
    (∀ (s : Str) (symbols : SymbolTable),
      (process_extern_inst s symbols).2 = symbols ∨
      ∃ lbl, (process_extern_inst s symbols).2 =
        symbols ++ [{ name := lbl, address := 0, type := .SYMBOL_EXTERNAL }]) ∧
    (∀ symbols : SymbolTable,
      (write_extern_file symbols = none ↔ extern_ref_sites symbols = []) ∧
      ∀ ls, write_extern_file symbols = some ls → ls = (extern_ref_sites symbols).map symbol_line) ∧
    (process_file s6_lines).map (fun a => a.ent) = some none ∧
    (process_file s6_lines).map (fun a => a.ext) = some (some ["K 0000101".toList]) ∧
    cell_lookup s6_second.2.2.1 1 =
      some { is_instruction := 0, content := .data (create_data_word ARE_EXTERNAL 0) } := by
  refine ⟨?_, ?_, ?_, ?_, ?_, ?_⟩
  · intro curr_ic start_ic operand code symbols opcode sym hmode hfind hext
    simp only [process_operand_second_pass, hmode, hfind]
    simp [hext, ARE_EXTERNAL]
  · intro s symbols
    simp only [process_extern_inst]
    by_cases hv :
        is_valid_label ((skip_whitespace s).takeWhile (fun c => !isspace_c c)) = true
    · simp only [hv]
      simp only [add_symbol]
      by_cases hf : (find_symbol symbols
          ((skip_whitespace s).takeWhile (fun c => !isspace_c c))).isSome = true
      · left
        simp [hf]
        split <;> (try split) <;> rfl
      · right
        refine ⟨(skip_whitespace s).takeWhile (fun c => !isspace_c c), ?_⟩
        simp [hf]
        split <;> (try split) <;> rfl
    · left
      simp [hv]
  · intro symbols
    constructor
    · simp only [write_extern_file, extern_ref_sites]
      split <;> rename_i h
      · simp_all [List.isEmpty_iff]
      · simp_all [List.isEmpty_iff]
    · intro ls hls
      simp only [write_extern_file, extern_ref_sites] at hls ⊢
      split at hls
      · exact absurd hls (by simp)
      · simpa using hls.symm
  · decide
  · decide
  · decide

/-- Witness for C2: the external direct-reference clause applied at a
concrete declaration entry. -/
theorem claim_C2_witness :
    process_operand_second_pass 100 100 ("K".toList) []
        [{ name := "K".toList, address := 0, type := .SYMBOL_EXTERNAL }] .OP_JUMPS =
      (true, 101,
        cell_store [] 1
          { is_instruction := 0,
            content := .data (create_data_word ARE_EXTERNAL 0) },
        [{ name := "K".toList, address := 0, type := .SYMBOL_EXTERNAL },
         { name := "K".toList, address := 101, type := .SYMBOL_EXTERNAL }]) :=
  claim_C2.1 100 100 ("K".toList) []
    [{ name := "K".toList, address := 0, type := .SYMBOL_EXTERNAL }] .OP_JUMPS
    { name := "K".toList, address := 0, type := .SYMBOL_EXTERNAL }
    (by decide) (by decide) (by decide)

/-- C3: a relative operand processed in the second pass can only succeed
when the referenced symbol exists and has kind Code, and in that case the
reserved cell receives a data word whose value is the symbol's address
minus the start address of the instruction, with ARE = Absolute. -/
theorem claim_C3 (curr_ic start_ic : Nat) (operand : Str) (code : CodeImage)
    (symbols : SymbolTable) (opcode : OpCode)
    (hmode : get_addressing_mode operand = .RELATIVE)
    (hok : (process_operand_second_pass curr_ic start_ic operand code symbols opcode).1 = true) :
    ∃ sym, find_symbol symbols (operand.drop 1) = some sym ∧ sym.type = .SYMBOL_CODE ∧
      process_operand_second_pass curr_ic start_ic operand code symbols opcode =
        (true, curr_ic + 1,
          cell_store code (curr_ic + 1 - START_IC)
            { is_instruction := 0,
              content := .data (create_data_word ARE_ABSOLUTE
                (sym.address - Int.ofNat start_ic)) },
          symbols) := by
  revert hok
  simp only [process_operand_second_pass, hmode]
  rcases hfind : find_symbol symbols (operand.drop 1) with _ | sym
  · intro hok
    exact absurd hok (by simp)
  · by_cases hj : opcode = .OP_JUMPS
    · by_cases hc : sym.type = .SYMBOL_CODE
      · intro _
        refine ⟨sym, rfl, hc, ?_⟩
        simp [hj, hc]
      · intro hok
        simp [hj, hc] at hok
    · intro hok
      simp [hj] at hok

/-- Witness for C3: the relative-operand clause applied at a concrete Code
symbol (a backward jump to the instruction itself). -/
theorem claim_C3_witness :
    ∃ sym,
      find_symbol [{ name := "L".toList, address := 100, type := .SYMBOL_CODE }]
          (("&L".toList).drop 1) = some sym ∧
      sym.type = .SYMBOL_CODE ∧
      process_operand_second_pass 100 100 ("&L".toList) []
          [{ name := "L".toList, address := 100, type := .SYMBOL_CODE }] .OP_JUMPS =
        (true, 101,
          cell_store [] 1
            { is_instruction := 0,
              content := .data (create_data_word ARE_ABSOLUTE (sym.address - Int.ofNat 100)) },
          [{ name := "L".toList, address := 100, type := .SYMBOL_CODE }]) :=
  claim_C3 100 100 ("&L".toList) []
    [{ name := "L".toList, address := 100, type := .SYMBOL_CODE }] .OP_JUMPS
    (by decide) (by decide)

/-- Scenario S1 of the specification: the minimal halt program. -/
def s1_lines : List Str := ["stop\n".toList]

/-- The line format asserted by the specification for `.ob` body lines: a
7-digit zero-padded decimal address, one space, a 6-digit lowercase
hexadecimal word — and nothing else. -/
def ob_line_claim_format (l : Str) : Prop :=
  ∃ a w, a < 10 ^ 7 ∧ w < 2 ^ 24 ∧ l = digitsPad 10 7 a ++ ' ' :: digitsPad 16 6 w

/-- Counterexample to C4: the body line that `write_object_file` emits for
the one-instruction program `stop` is the 39-character line
`0000100 3c0004 001111000000000000000100` — address, hexadecimal field
*and* a 24-character binary field — which does not have the 14-character
shape the claim asserts. -/
theorem claim_C4_counterexample :
    (process_file s1_lines).map (fun a => a.ob.get? 1) = some (some (ob_line 100 3932164)) ∧
    ob_line 100 3932164 =
      "0000100 3c0004 001111000000000000000100".toList ∧
    ¬ ob_line_claim_format (ob_line 100 3932164) := by
  refine ⟨by decide, by decide, ?_⟩
  rintro ⟨a, w, -, -, heq⟩
  have h39 : (ob_line 100 3932164).length = 39 := by decide
  rw [heq] at h39
  simp [digitsPad_length] at h39

/-- C4 as amended: every `.ob` body line (code and data cells alike)
consists of the 7-digit zero-padded decimal address, a space, 6 lowercase
hexadecimal digits, a space, and 24 binary digits — 39 characters in all —
provided the addresses stay below 10^7 (the `%07ld` padding width). -/
theorem claim_C4 (code : CodeImage) (data : List Int) (ic dc : Nat)
    (hic : START_IC ≤ ic) (hbound : ic + dc ≤ 10 ^ 7) :
    ∀ l ∈ ob_code_lines code ic ++ ob_data_lines data ic dc,
      ∃ a hx bn, a < 10 ^ 7 ∧
        l = digitsPad 10 7 a ++ ' ' :: (hx ++ ' ' :: bn) ∧
        (∀ c ∈ digitsPad 10 7 a, isdigit_c c = true) ∧
        hx.length = 6 ∧ (∀ c ∈ hx, is_lower_hex c = true) ∧
        bn.length = 24 ∧ (∀ c ∈ bn, c = '0' ∨ c = '1') ∧
        l.length = 39 := by
  have hfmt : ∀ a w : Nat, a < 10 ^ 7 →
      ∃ a2 hx bn, a2 < 10 ^ 7 ∧
        ob_line a w = digitsPad 10 7 a2 ++ ' ' :: (hx ++ ' ' :: bn) ∧
        (∀ c ∈ digitsPad 10 7 a2, isdigit_c c = true) ∧
        hx.length = 6 ∧ (∀ c ∈ hx, is_lower_hex c = true) ∧
        bn.length = 24 ∧ (∀ c ∈ bn, c = '0' ∨ c = '1') ∧
        (ob_line a w).length = 39 := by
    intro a w ha
    have ha2 : a < 10000000 := by simpa using ha
    refine ⟨a, encode_number w, encode_binary w, ha, ?_, ?_, ?_, ?_, ?_, ?_, ?_⟩
    · simp [ob_line, fmt_long7, ha2]
    · exact digitsPad_dec_mem 7 a
    · simp [encode_number, digitsPad_length]
    · intro c hc; exact digitsPad_hex_mem 6 _ c hc
    · simp [encode_binary, digitsPad_length]
    · intro c hc; exact digitsPad_bin_mem 24 w c hc
    · simp [ob_line, fmt_long7, ha2, encode_number, encode_binary, digitsPad_length]
  intro l hl
  rcases List.mem_append.mp hl with h | h
  · simp only [ob_code_lines, List.mem_filterMap, List.mem_range] at h
    obtain ⟨addr, haddr, hcell⟩ := h
    obtain ⟨cell, -, hline⟩ := Option.map_eq_some'.mp hcell
    have ha : addr + START_IC < 10 ^ 7 := by
      simp only [START_IC] at *
      omega
    obtain ⟨a2, hx, bn, h1, h2, h3, h4, h5, h6, h7, h8⟩ :=
      hfmt (addr + START_IC) (cell_word cell) ha
    exact ⟨a2, hx, bn, h1, hline ▸ h2, h3, h4, h5, h6, h7, hline ▸ h8⟩
  · simp only [ob_data_lines, List.mem_map, List.mem_range] at h
    obtain ⟨addr, haddr, hline⟩ := h
    have ha : addr + ic < 10 ^ 7 := by omega
    obtain ⟨a2, hx, bn, h1, h2, h3, h4, h5, h6, h7, h8⟩ :=
      hfmt (addr + ic) (mask24 (data.getD addr 0)) ha
    exact ⟨a2, hx, bn, h1, hline ▸ h2, h3, h4, h5, h6, h7, hline ▸ h8⟩

/-- Witness for C4: the amended format theorem applied to the single data
line of a one-value data image. -/
theorem claim_C4_witness :
    ∃ a hx bn, a < 10 ^ 7 ∧
      ob_line 100 7 = digitsPad 10 7 a ++ ' ' :: (hx ++ ' ' :: bn) ∧
      (∀ c ∈ digitsPad 10 7 a, isdigit_c c = true) ∧
      hx.length = 6 ∧ (∀ c ∈ hx, is_lower_hex c = true) ∧
      bn.length = 24 ∧ (∀ c ∈ bn, c = '0' ∨ c = '1') ∧
      (ob_line 100 7).length = 39 :=
  claim_C4 [] [7] 100 1 (by decide) (by decide) (ob_line 100 7) (by decide)

/-- Scenario S2 of the specification: a `.data` directive only. -/
def s2_lines : List Str := ["A: .data 1, -2, 3\n".toList]

/-- C5: every data cell is written to the `.ob` file as the bare value
masked to 24 bits — no left shift, no ARE bits, negatives in 24-bit two's
complement — and on scenario S2 the header is `0 3` and the three body
lines carry addresses 0000100/0000101/0000102 with hexadecimal fields
000001/fffffe/000003. -/
theorem claim_C5 :
    (∀ (data : List Int) (ic dc addr : Nat), addr < dc →
      (ob_data_lines data ic dc).get? addr =
        some (ob_line (addr + ic) (mask24 (data.getD addr 0)))) ∧
    mask24 (-2) = 16777214 ∧
    (process_file s2_lines).map (fun a => a.ob) =
      some [ob_header 100 3, ob_line 100 1, ob_line 101 16777214, ob_line 102 3] ∧
    ob_header 100 3 = "0 3".toList ∧
    (ob_line 100 1).take 7 = "0000100".toList ∧
    ((ob_line 100 1).drop 8).take 6 = "000001".toList ∧
    (ob_line 101 16777214).take 7 = "0000101".toList ∧
    ((ob_line 101 16777214).drop 8).take 6 = "fffffe".toList ∧
    (ob_line 102 3).take 7 = "0000102".toList ∧
    ((ob_line 102 3).drop 8).take 6 = "000003".toList := by
  refine ⟨?_, by decide, by decide, by decide, by decide, by decide, by decide, by decide,
    by decide, by decide⟩
  intro data ic dc addr haddr
  simp [ob_data_lines, List.getElem?_map, List.getElem?_range, haddr]

/-- Witness for C5: the data-line clause applied at index 1 of the S2 data
image. -/
theorem claim_C5_witness :
    (ob_data_lines [1, -2, 3] 100 3).get? 1 = some (ob_line (1 + 100) (mask24 ([1, -2, 3].getD 1 0))) :=
  claim_C5.1 [1, -2, 3] 100 3 1 (by decide)

theorem takeWhile_eq_cons_head {p : Char → Bool} {t : Str} {c : Char} {rest : Str}
    (h : t.takeWhile p = c :: rest) : t.head? = some c ∧ p c = true := by
  cases t with
  | nil => simp [List.takeWhile] at h
  | cons d t2 =>
    rw [List.takeWhile_cons] at h
    by_cases hp : p d = true
    · simp only [hp, if_true, List.cons.injEq] at h
      obtain ⟨h1, -⟩ := h
      subst h1
      exact ⟨rfl, hp⟩
    · simp [hp] at h

theorem alpha_not_comment {c : Char} (h : isalpha_c c = true) : (c = '\n' || c = ';') = false := by
  by_cases h1 : c = '\n'
  · subst h1; exact absurd h (by decide)
  · by_cases h2 : c = ';'
    · subst h2; exact absurd h (by decide)
    · simp [h1, h2]

/-- The counterexample line used for C6. -/
def extern_k_line : Str := ".extern K\n".toList

/-- Counterexample to C6: after a first `.extern K` the table holds a
definition of `K`, yet a second `.extern K` line succeeds (returning TRUE
and leaving the state unchanged) instead of reporting a duplicate-name
error — `process_extern_inst` discards the failure of `add_symbol`. -/
theorem claim_C6_counterexample :
    (find_symbol (process_line_first_pass extern_k_line initAsm).2.symbols
        ("K".toList)).isSome = true ∧
    process_line_first_pass extern_k_line (process_line_first_pass extern_k_line initAsm).2 =
      (true, (process_line_first_pass extern_k_line initAsm).2) := by decide

/-- C6 as amended: a *label definition* whose name already exists in the
symbol table makes the first pass fail the line with the state unchanged
(for `.data`/`.string`/instruction lines alike, since the check precedes
the dispatch); but the operand of `.extern` is not subject to the check —
when the name already exists the line still succeeds and the table is
unchanged. -/
theorem claim_C6 :
    (∀ (line : Str) (st : Asm) (sym : Str),
      get_label line = some sym →
      is_valid_label sym = true →
      (find_symbol st.symbols sym).isSome = true →
      process_line_first_pass line st = (false, st)) ∧
    (∀ (s : Str) (symbols : SymbolTable),
      is_valid_label ((skip_whitespace s).takeWhile (fun c => !isspace_c c)) = true →
      (find_symbol symbols ((skip_whitespace s).takeWhile (fun c => !isspace_c c))).isSome = true →
      (skip_whitespace ((skip_whitespace s).drop
          ((skip_whitespace s).takeWhile (fun c => !isspace_c c)).length)).head? = some '\n' →
      process_extern_inst s symbols = (true, symbols)) := by
  constructor
  · intro line st sym hgl hv hf
    obtain ⟨c, rest, hsym⟩ : ∃ c rest, sym = c :: rest := by
      cases sym with
      | nil => exact absurd hv (by decide)
      | cons c rest => exact ⟨c, rest, rfl⟩
    have halpha : isalpha_c c = true := by
      rw [hsym] at hv
      simp only [is_valid_label, Bool.and_eq_true] at hv
      exact hv.1.1
    have hgl2 := hgl
    simp only [get_label] at hgl2
    split at hgl2
    case isFalse => exact absurd hgl2 (by simp)
    case isTrue hcolon =>
      have htok : (skip_whitespace line).takeWhile (fun c => !label_stop c) = c :: rest := by
        rw [← hsym]
        exact Option.some.inj hgl2
      obtain ⟨hhead, -⟩ := takeWhile_eq_cons_head htok
      simp only [process_line_first_pass, hhead, hgl, alpha_not_comment halpha, Bool.false_eq_true,
        if_false, hv, Bool.not_true, hf, if_true]

  · intro s symbols hv hf htr
    simp only [process_extern_inst, hv, Bool.not_true, Bool.false_eq_true, if_false,
      add_symbol, hf, if_true, htr]

/-- Witness for C6: the duplicate-label clause applied to a concrete line
and table. -/
theorem claim_C6_witness :
    process_line_first_pass ("X: stop\n".toList)
        { initAsm with
          symbols := [{ name := "X".toList, address := 0, type := .SYMBOL_DATA }] } =
      (false,
        { initAsm with
          symbols := [{ name := "X".toList, address := 0, type := .SYMBOL_DATA }] }) :=
  claim_C6.1 ("X: stop\n".toList)
    { initAsm with symbols := [{ name := "X".toList, address := 0, type := .SYMBOL_DATA }] }
    ("X".toList) (by decide) (by decide) (by decide)

/-- Counterexample to C7: the line `.data5` is *not* rejected as an
invalid directive; `get_instruction_type` matches directives by prefix, so
the first pass accepts the line as a `.data` directive with argument `5`
and stores the value 5 in the data image. -/
theorem claim_C7_counterexample :
    process_line_first_pass (".data5\n".toList) initAsm =
      (true, { initAsm with dc := 1, data := [5] }) := by decide

/-- C7 as amended: a `.`-token is an invalid directive exactly when none of
the four directive names is a *prefix* of it; a token that merely begins
with a directive name is accepted as that directive with the remainder as
its argument text (so `.data5` is parsed as `.data` followed by `5`). -/
theorem claim_C7 :
    (∀ s : Str, (get_instruction_type s).1 = .DIR_ERROR ↔
      (s.head? = some '.' ∧ (".data".toList).isPrefixOf s = false ∧
       (".string".toList).isPrefixOf s = false ∧ (".entry".toList).isPrefixOf s = false ∧
       (".extern".toList).isPrefixOf s = false)) ∧
    (∀ t : Str, get_instruction_type (".data".toList ++ t) = (.DIR_DATA, t)) ∧
    (∀ t : Str, get_instruction_type (".string".toList ++ t) = (.DIR_STRING, t)) ∧
    (∀ t : Str, get_instruction_type (".entry".toList ++ t) = (.DIR_ENTRY, t)) ∧
    (∀ t : Str, get_instruction_type (".extern".toList ++ t) = (.DIR_EXTERNAL, t)) ∧
    get_instruction_type (".data5\n".toList) = (.DIR_DATA, "5\n".toList) := by
  refine ⟨?_, fun t => by simp [get_instruction_type, List.isPrefixOf],
    fun t => by simp [get_instruction_type, List.isPrefixOf],
    fun t => by simp [get_instruction_type, List.isPrefixOf],
    fun t => by simp [get_instruction_type, List.isPrefixOf], by decide⟩
  intro s
  simp only [get_instruction_type]
  split_ifs with h1 h2 h3 h4 h5
  · constructor
    · intro hfalse; exact absurd hfalse (by decide)
    · rintro ⟨hh, -⟩; exact absurd hh h1
  · constructor
    · intro hfalse; exact absurd hfalse (by decide)
    · rintro ⟨-, hd, -, -, -⟩; rw [hd] at h2; exact absurd h2 (by decide)
  · constructor
    · intro hfalse; exact absurd hfalse (by decide)
    · rintro ⟨-, -, hd, -, -⟩; rw [hd] at h3; exact absurd h3 (by decide)
  · constructor
    · intro hfalse; exact absurd hfalse (by decide)
    · rintro ⟨-, -, -, hd, -⟩; rw [hd] at h4; exact absurd h4 (by decide)
  · constructor
    · intro hfalse; exact absurd hfalse (by decide)
    · rintro ⟨-, -, -, -, hd⟩; rw [hd] at h5; exact absurd h5 (by decide)
  · refine iff_of_true rfl ⟨not_not.mp h1, ?_, ?_, ?_, ?_⟩ <;>
      exact Bool.eq_false_iff.mpr (by assumption)

/-- Witness for C7: the invalid-directive characterization applied to a
concrete `.`-token that no directive name prefixes. -/
theorem claim_C7_witness :
    (get_instruction_type (".bad\n".toList)).1 = .DIR_ERROR :=
  (claim_C7.1 (".bad\n".toList)).mpr (by decide)

/-- The line `stop` as read by `fgets`. -/
def stop_line : Str := "stop\n".toList

/-- The machine cell the first pass emits for a `stop` line. -/
def stop_cell : MachineWord :=
  { is_instruction := 1,
    content := .code (create_instruction_word .OP_HALT .F_NONE .IMMEDIATE .IMMEDIATE 0 0) }

theorem process_stop_line (st : Asm) :
    process_line_first_pass stop_line st =
      (true, { st with ic := st.ic + 1, code := (st.ic - START_IC, stop_cell) :: st.code }) := by
  simp [process_line_first_pass, stop_line, skip_whitespace, get_label, first_pass_dispatch,
    get_instruction_type, process_code_line, op_token, get_operation_details, parse_operands,
    parse_operands_loop, operand_fields, create_instruction_word, cell_store, cell_set_length,
    stop_cell, List.takeWhile, List.dropWhile, label_stop, List.isPrefixOf]

theorem run_replicate_stop (n : Nat) : ∀ st : Asm,
    (run_first_pass (List.replicate n stop_line) st).1 = true ∧
    (run_first_pass (List.replicate n stop_line) st).2.ic = st.ic + n ∧
    (0 < n → ∃ rest, (run_first_pass (List.replicate n stop_line) st).2.code =
      (st.ic + n - 1 - START_IC, stop_cell) :: rest) := by
  induction n with
  | zero => intro st; exact ⟨rfl, by simp [run_first_pass], by omega⟩
  | succ n ih =>
    intro st
    have hrun : run_first_pass (List.replicate (n + 1) stop_line) st =
        run_first_pass (List.replicate n stop_line)
          { st with ic := st.ic + 1, code := (st.ic - START_IC, stop_cell) :: st.code } := by
      rw [List.replicate_succ]
      simp [run_first_pass, process_stop_line st]
    obtain ⟨ih1, ih2, ih3⟩ :=
      ih { st with ic := st.ic + 1, code := (st.ic - START_IC, stop_cell) :: st.code }
    have ih2b : (run_first_pass (List.replicate n stop_line) { st with ic := st.ic + 1, code := (st.ic - START_IC, stop_cell) :: st.code }).2.ic = st.ic + 1 + n := ih2
    have ih3b : 0 < n → ∃ rest, (run_first_pass (List.replicate n stop_line) { st with ic := st.ic + 1, code := (st.ic - START_IC, stop_cell) :: st.code }).2.code = (st.ic + 1 + n - 1 - START_IC, stop_cell) :: rest := ih3
    refine ⟨by rw [hrun]; exact ih1, by rw [hrun, ih2b]; omega, ?_⟩
    intro _
    rw [hrun]
    rcases Nat.eq_zero_or_pos n with h0 | hpos
    · subst h0
      have hidx : st.ic + (0 + 1) - 1 - START_IC = st.ic - START_IC := by omega
      refine ⟨st.code, ?_⟩
      rw [hidx]
      rfl
    · obtain ⟨rest, hrest⟩ := ih3b hpos
      refine ⟨rest, ?_⟩
      rw [hrest]
      have hidx : st.ic + 1 + n - 1 - START_IC = st.ic + (n + 1) - 1 - START_IC := by omega
      rw [hidx]

/-- C8: the claim is right about the intended behavior, but the code has no
overflow check at all: a program of 1201 `stop` lines sails through the
first pass with success (no diagnostic), the final IC is 1301, and a cell
is stored at code-image index 1200 — which is `MAX_CODE_SIZE`, one past the
last valid index of the 1200-cell `code` array (an out-of-bounds write,
undefined behavior, in the C source). -/
theorem claim_C8 :
    (run_first_pass (List.replicate 1201 stop_line) initAsm).1 = true ∧
    (run_first_pass (List.replicate 1201 stop_line) initAsm).2.ic = 1301 ∧
    (∃ rest, (run_first_pass (List.replicate 1201 stop_line) initAsm).2.code =
      (1200, stop_cell) :: rest) ∧
    MAX_CODE_SIZE ≤ 1200 := by
  obtain ⟨h1, h2, h3⟩ := run_replicate_stop 1201 initAsm
  refine ⟨h1, by rw [h2]; rfl, ?_, by decide⟩
  obtain ⟨rest, hrest⟩ := h3 (by omega)
  have hidx : initAsm.ic + 1201 - 1 - START_IC = 1200 := by decide
  rw [hidx] at hrest
  exact ⟨rest, hrest⟩

/-- The first whitespace-delimited token of a raw line (the notion the
claim about macro-free sources is phrased in). -/
def first_token (l : Str) : Str :=
  (l.dropWhile (fun c => isspace_c c)).takeWhile (fun c => !isspace_c c)

/-- Counterexample to C9: the one-line source `mcroend` contains no macro
definition — its first token is `mcroend`, not `mcro` — yet preprocessing
fails ("mcroend without matching mcro") instead of succeeding with an
identical `.am`. -/
theorem claim_C9_counterexample :
    (∀ l ∈ ["mcroend\n".toList], first_token l ≠ "mcro".toList) ∧
    (preprocess_file ["mcroend\n".toList]).1 = false := by decide

theorem preprocess_pass_lines (lines : List Str) :
    ∀ out : List Str,
    (∀ l ∈ lines, mcro_starts (skip_whitespace (str_trim l)) = false ∧
      mcroend_starts (skip_whitespace (str_trim l)) = false) →
    preprocess_go lines { macros := [], inside := false, out := out } =
      (true, { macros := [], inside := false, out := out ++ lines }) := by
  induction lines with
  | nil => intro out _; simp [preprocess_go]
  | cons l ls ih =>
    intro out h
    obtain ⟨h1, h2⟩ := h l (List.mem_cons_self l ls)
    have hline : preprocess_line l { macros := [], inside := false, out := out } =
        (true, { macros := [], inside := false, out := out ++ [l] }) := by
      simp only [preprocess_line, h1, h2]
      cases hh : (str_trim l).head? with
      | none => simp
      | some c0 =>
        by_cases hc : c0 = ';'
        · simp [hc]
        · simp [hc, find_macro_def]
    have hrec := ih (out ++ [l]) (fun x hx => h x (List.mem_cons_of_mem l hx))
    simp only [preprocess_go, hline]
    simp only [if_true]
    rw [hrec]
    simp

/-- C9 as amended: preprocessing a source in which no line's trimmed text
begins with a `mcro` token *or* a `mcroend` token succeeds and reproduces
the input lines byte for byte.  (The original claim only excluded `mcro`
lines; a bare `mcroend` line also has no macro definition yet aborts
preprocessing, so it must be excluded too.) -/
theorem claim_C9 (lines : List Str)
    (h : ∀ l ∈ lines, mcro_starts (skip_whitespace (str_trim l)) = false ∧
      mcroend_starts (skip_whitespace (str_trim l)) = false) :
    preprocess_file lines = (true, lines) := by
  have hgo := preprocess_pass_lines lines [] h
  simp [preprocess_file, hgo]

/-- Witness for C9: a one-line macro-free source round-trips. -/
theorem claim_C9_witness :
    preprocess_file ["hello\n".toList] = (true, ["hello\n".toList]) :=
  claim_C9 ["hello\n".toList] (by decide)

/-- A program whose `.entry` line precedes the instruction with the
relative operand. -/
def entry_first_prog : List Str :=
  [".entry MAIN\n".toList, "MAIN: jmp &MAIN\n".toList, "stop\n".toList]

/-- The same program with the `.entry` line after that instruction. -/
def entry_last_prog : List Str :=
  ["MAIN: jmp &MAIN\n".toList, "stop\n".toList, ".entry MAIN\n".toList]

/-- A program with an `.entry MAIN` before `jmp &MAIN` *and* an unrelated
error (an undefined symbol) further down. -/
def entry_cex_pre : List Str :=
  [".entry MAIN\n".toList, "MAIN: jmp &MAIN\n".toList, "jmp NOPE\n".toList]

/-- `entry_cex_pre` with the `.entry MAIN` line moved after the relative
instruction. -/
def entry_cex_post : List Str :=
  ["MAIN: jmp &MAIN\n".toList, "jmp NOPE\n".toList, ".entry MAIN\n".toList]

/-- Counterexample to C10: in `entry_cex_pre` the line `.entry MAIN`
precedes the instruction `jmp &MAIN` and `MAIN` is defined as a Code label,
so the claim asserts that the program with the `.entry` line moved after
that instruction assembles successfully — but `entry_cex_post` still fails
(its `jmp NOPE` references an undefined symbol), refuting the universally
quantified second half of the claim. -/
theorem claim_C10_counterexample :
    find_symbol (run_first_pass entry_cex_pre initAsm).2.symbols ("MAIN".toList) =
      some { name := "MAIN".toList, address := 100, type := .SYMBOL_CODE } ∧
    process_file entry_cex_post = none := by decide

/-- C10 as amended: `.entry` promotion overwrites the symbol's kind (a Code
symbol becomes Entry), and the second pass's relative-operand check demands
kind exactly Code, so after a promotion every relative reference to the
symbol fails; a program whose `.entry L` precedes the `&L` instruction
therefore fails its second pass even though `L` is a Code label, while the
same program with `.entry L` after the instruction assembles successfully
*provided the rest of the program is error-free* (shown on the concrete
pair `entry_first_prog`/`entry_last_prog`). -/
theorem claim_C10 :
    (∀ (a : Int) (rest : SymbolTable) (lbl : Str),
      find_symbol_by_type rest lbl .SYMBOL_ENTRY = none →
      promote_to_entry_kind ({ name := lbl, address := a, type := .SYMBOL_CODE } :: rest) lbl =
        (true, { name := lbl, address := a, type := .SYMBOL_ENTRY } :: rest)) ∧
    (∀ (curr_ic start_ic : Nat) (operand : Str) (code : CodeImage) (symbols : SymbolTable)
        (opcode : OpCode) (sym : SymbolEntry),
      get_addressing_mode operand = .RELATIVE →
      find_symbol symbols (operand.drop 1) = some sym →
      sym.type = .SYMBOL_ENTRY →
      (process_operand_second_pass curr_ic start_ic operand code symbols opcode).1 = false) ∧
    process_file entry_first_prog = none ∧
    (process_file entry_last_prog).isSome = true := by
  refine ⟨?_, ?_, by decide, by decide⟩
  · intro a rest lbl hnone
    simp [promote_to_entry_kind, find_symbol_by_type, List.find?, set_first_entry_type, hnone,
      show (SymbolType.SYMBOL_CODE == SymbolType.SYMBOL_ENTRY) = false from rfl,
      show (SymbolType.SYMBOL_CODE == SymbolType.SYMBOL_CODE) = true from rfl]
    intro x hx heq hty
    have hall : ∀ x ∈ rest, x.name = lbl → ¬ x.type = SymbolType.SYMBOL_ENTRY := by
      simpa [find_symbol_by_type] using hnone
    exact hall x hx heq hty
  · intro curr_ic start_ic operand code symbols opcode sym hmode hfind htype
    simp only [process_operand_second_pass, hmode, hfind]
    by_cases hj : opcode = .OP_JUMPS
    · simp [hj, htype]
    · simp [hj]

/-- Witness for C10: the relative-reference clause applied after a concrete
promotion. -/
theorem claim_C10_witness :
    (process_operand_second_pass 101 100 ("&L".toList) []
        [{ name := "L".toList, address := 100, type := .SYMBOL_ENTRY }] .OP_JUMPS).1 = false :=
  claim_C10.2.1 101 100 ("&L".toList) []
    [{ name := "L".toList, address := 100, type := .SYMBOL_ENTRY }] .OP_JUMPS
    { name := "L".toList, address := 100, type := .SYMBOL_ENTRY }
    (by decide) (by decide) (by decide)

end Asm24
